import Mathlib

/-!
Verification of the quantification engine of the DT-BASE causal model
(`dtbase/quantify.py`, `dtbase/model/estimate.py`, `dtbase/dtbase.py`,
`dtbase/model/link.py`, `dtbase/model/db.py`).

NumPy sample arrays of length `sample_size` are embedded as functions
`Fin n → ℚ`; all elementwise array arithmetic becomes pointwise rational
arithmetic.  Floating-point `x ** y` (arbitrary real exponent) and
`sqrt` have no computable rational counterpart, so the two functions that
use them (`calc_cp_geometric`, the `np.std` summary) take the operation
as an explicit function parameter; no statement below depends on the
choice of that parameter.  A Python function that can raise an uncaught
exception is embedded as returning `Option` (`none` = the exception
escapes).

The development has two layers, reflecting how the source obtains
samples.  In the source, samples are NOT stored with a link: every
`model.get_link` call (`dtbase.py` lines 61-65, `db.py` `get_link`)
reconstructs the `Link` from its database row and builds three fresh
`Estimate` objects, each of which immediately draws a new sample vector
from an UNSEEDED generator in `__init__` (`estimate.py` lines 27-38).

* The FROZEN layer (`Link`, `DTBase`, `calc_normalized_weights`,
  `calc_cp_arithmetic`, `calc_cp_geometric`, `calculate`) gives every
  link one fixed materialization — one set of sample vectors reused at
  every read.  This abstraction is sound for the statements proved
  against it, none of which depends on whether two `get_link` calls
  agree: the geometric-aggregation zero (any samples), the `KeyError`
  control flow, the table size and key structure, the absence of the
  degenerate-weight and no-predecessor errors, and the noisy-OR
  monotonicity (quantified over arbitrary aggregated vectors).

* The LIVE layer (`Rand`, `LinkRow`, `DTBaseDB`, `zLoopAccum`,
  `weightsLoop`, `calc_normalized_weights_live`, `cpArithAccum`,
  `cpGeoAccum`, `calculate_live`) models the resampling itself: the
  unseeded generator is an oracle stream of drawn vectors, and a draw
  counter advances by three at each `get_link` call, in program order.
  The statements that DO depend on sample identity across `get_link`
  calls — the weight-normalization invariant and the repeatability of
  `calculate` — are settled against this layer.
-/

set_option autoImplicit false

namespace DTQuant

/-- Embedding of `dtbase/model/link.py`, class `Link`: one materialized
`Link` object as returned by a single `model.get_link` call, a causal
edge from `parent_id` to `child_id` carrying the three elicited
estimates.  The quantification code reads an estimate only through its
`.sample` array, so each `m1`, `m2`, `m3` field holds the vector that
this materialization drew.  The frozen layer reuses one such
materialization per link; the source instead rebuilds (and redraws) one
per `get_link` call — see `LinkRow` and the live layer below. -/
structure Link (n : ℕ) where
  link_id : String
  parent_id : String
  child_id : String
  m1 : Fin n → ℚ
  m2 : Fin n → ℚ
  m3 : Fin n → ℚ
  edge_key : ℕ

/-- Embedding of `dtbase/model/node.py`, class `Node`: quantification never
reads any of these fields except through graph structure. -/
structure Node where
  node_id : String
  name : String
  keywords : String

/-- Embedding of `dtbase/dtbase.py`, class `dtbasemodel` (annotated `DTBase`
in `quantify.py`) in the frozen layer: the node store and, for each link,
one fixed materialization.  The `networkx` multigraph is built from
exactly these links (`build_graph`), so graph queries below are derived
from the link list.  (`DTBaseDB` below is the row-level model without
samples, read through the resampling `get_link` semantics.) -/
structure DTBase (n : ℕ) where
  nodes : List Node
  links : List (Link n)

/-- Deduplication keeping the first occurrence, the order in which the
multigraph adjacency yields each distinct predecessor.  Python wraps the
predecessors in `set(...)`, whose iteration order is arbitrary (hash
based); the embedding fixes the first-occurrence order.  No theorem below
relies on which arbitrary order is chosen, only on the fact that no
sorting is applied. -/
def dedupFirst : List String → List String
  | [] => []
  | x :: xs => x :: (dedupFirst xs).filter (fun y => y ≠ x)

/-- Embedding of `model.graph.predecessors(target_node)`: the distinct
parent ids of links whose child is the target. -/
def DTBase.preds {n : ℕ} (m : DTBase n) (t : String) : List String :=
  dedupFirst ((m.links.filter (fun l => l.child_id = t)).map Link.parent_id)

/-- Embedding of `model.graph.get_edge_data(parent_id, target_node).values()`
followed by `model.get_link(edge[link_id])`: all links from `p` to `t`. -/
def DTBase.edgesTo {n : ℕ} (m : DTBase n) (p t : String) : List (Link n) :=
  m.links.filter (fun l => l.parent_id = p ∧ l.child_id = t)

/-- Embedding of the accumulated denominator `Z[parent_id]` of
`calc_normalized_weights` (`quantify.py` lines 54-59):
`Z[p] = Σ over links p→target of m1.sample * m3.sample`, elementwise. -/
def calcZ {n : ℕ} (m : DTBase n) (t p : String) (i : Fin n) : ℚ :=
  ((m.edgesTo p t).map (fun l => l.m1 i * l.m3 i)).sum

/-- Embedding of `calc_normalized_weights` (`quantify.py` lines 43-64)
in the frozen layer: each link is read through one fixed
materialization, so the same `m1`/`m3` vectors appear in the `Z`
accumulation and in the weight numerator.  (The source calls
`model.get_link` separately in each loop and therefore divides fresh
samples by a `Z` built from different samples; that behaviour is
`calc_normalized_weights_live` below and decides claim C1.)
The weight loop runs over every link of the whole model
(`for link_id in model.links()`) and evaluates `Z[link.parent_id]`; the
dict `Z` only has keys for predecessors of the target, so a link whose
parent is not such a predecessor raises an uncaught `KeyError`, embedded
as `none` — a control-flow fact independent of sample identity.
Otherwise the returned association list maps each link id to
`(m1.sample * m3.sample) / Z[parent]` elementwise.  (Division by a zero
denominator does not raise in NumPy; the rational embedding gives the
junk value `0` at such an index where NumPy gives `inf`/`nan`.) -/
def calc_normalized_weights {n : ℕ} (m : DTBase n) (t : String) :
    Option (List (String × (Fin n → ℚ))) :=
  if m.links.all (fun l => (m.preds t).contains l.parent_id) then
    some (m.links.map (fun l =>
      (l.link_id, fun i => (l.m1 i * l.m3 i) / calcZ m t l.parent_id i)))
  else
    none

/-- Lookup in the weights defaultdict: a missing key yields the default
`np.zeros(sample_size)` vector. -/
def wlookup {n : ℕ} (w : List (String × (Fin n → ℚ))) (k : String) : Fin n → ℚ :=
  match w.find? (fun kv => kv.1 == k) with
  | some kv => kv.2
  | none => fun _ => 0

/-- Embedding of `calc_cp_arithmetic` (`quantify.py` lines 66-82):
`cp[p] = Σ over links p→target of weight[link] * m2.sample`, elementwise,
starting from the defaultdict default `np.zeros`. -/
def calc_cp_arithmetic {n : ℕ} (m : DTBase n) (t : String)
    (w : List (String × (Fin n → ℚ))) : String → Fin n → ℚ :=
  fun p i => ((m.edgesTo p t).map (fun l => wlookup w l.link_id i * l.m2 i)).sum

/-- Embedding of `calc_cp_geometric` (`quantify.py` lines 84-100).  The
accumulator is the defaultdict default `np.zeros(sample_size)` and each
edge multiplies into it: `cp[parent_id] *= m2.sample ** weight`.  The
float power `**` is taken as the explicit parameter `pw`.  Note the
running product starts at the ZERO vector, exactly as in the source. -/
def calc_cp_geometric {n : ℕ} (pw : ℚ → ℚ → ℚ) (m : DTBase n) (t : String)
    (w : List (String × (Fin n → ℚ))) : String → Fin n → ℚ :=
  fun p i =>
    (m.edgesTo p t).foldl (fun acc l => acc * pw (l.m2 i) (wlookup w l.link_id i)) 0

/-- Embedding of `calc_noisy_or` (`quantify.py` lines 102-114):
`1 - Π over parents (1 - cp[parent])`, elementwise, product initialized
to `np.ones(sample_size)`. -/
def calc_noisy_or {n : ℕ} (cp : String → Fin n → ℚ) (ps : List String) (i : Fin n) : ℚ :=
  1 - ps.foldl (fun acc p => acc * (1 - cp p i)) 1

/-- Embedding of the subset enumeration of `calculate` (`quantify.py`
lines 37-38): `for i in range(1, len(pred)+1): for combo in
combinations(pred, i)`.  `itertools.combinations` emits the element
subsets of each size in the order the input iterable presents its
elements; `List.sublistsLen` enumerates exactly the length-`(j+1)`
sublists of `pred` in `pred` order. -/
def subsetsList (pred : List String) : List (List String) :=
  (List.range pred.length).flatMap (fun j => List.sublistsLen (j + 1) pred)

/-- Embedding of `np.mean` on a length-`n` sample vector. -/
def vmean {n : ℕ} (v : Fin n → ℚ) : ℚ := (∑ i, v i) / n

/-- Embedding of `np.std` (population standard deviation): the square root
of the mean squared deviation.  The float `sqrt` is taken as the explicit
parameter `sq`. -/
def np_std {n : ℕ} (sq : ℚ → ℚ) (v : Fin n → ℚ) : ℚ :=
  sq (vmean (fun i => (v i - vmean v) ^ 2))

/-- Embedding of the `AggregationMethod` enum of `quantify.py`. -/
inductive AggregationMethod where
  | ARITHMETIC
  | GEOMETRIC
deriving DecidableEq

/-- Embedding of the method dispatch of `calculate` (`quantify.py` lines
30-33): the aggregated conditional probability `aggregated_cp` is
produced by the arithmetic or the geometric aggregator. -/
def aggregated_cp {n : ℕ} (pw : ℚ → ℚ → ℚ) (m : DTBase n) (t : String)
    (w : List (String × (Fin n → ℚ))) : AggregationMethod → String → Fin n → ℚ
  | .ARITHMETIC => calc_cp_arithmetic m t w
  | .GEOMETRIC => calc_cp_geometric pw m t w

/-- Embedding of `calculate` (`quantify.py` lines 18-41): normalize the
weights, aggregate per parent by the chosen method, then store, for every
combination of sizes `1..k` of the predecessor set, the `(mean, std)`
summary of the noisy-OR combination, keyed by that combination tuple.
`pw` and `sq` are the float power and square root (see above).  A
`KeyError` escaping from `calc_normalized_weights` is propagated as
`none`. -/
def calculate {n : ℕ} (pw : ℚ → ℚ → ℚ) (sq : ℚ → ℚ) (m : DTBase n) (t : String)
    (ag : AggregationMethod) : Option (List (List String × (ℚ × ℚ))) :=
  (calc_normalized_weights m t).map (fun w =>
    (subsetsList (m.preds t)).map (fun combo =>
      (combo, (vmean (calc_noisy_or (aggregated_cp pw m t w ag) combo),
               np_std sq (calc_noisy_or (aggregated_cp pw m t w ag) combo)))))

/-- Embedding of the mean parameter of `Estimate.normal`
(`dtbase/model/estimate.py` line 50): `mp = (self.b - self.a) / 2`, the
value passed as the mean of the normal draw. -/
def normal_mp (a b : ℚ) : ℚ := (b - a) / 2

/-- Embedding of the standard-deviation parameter of `Estimate.normal`
(`estimate.py` line 52): `sd = (self.b - mp) / z` with `z = norm.ppf(.95)`
taken as the parameter `z` (an irrational constant). -/
def normal_sd (z a b : ℚ) : ℚ := (b - normal_mp a b) / z

/-- Definition following the words of the spec, for comparison with
`normal_mp`: the midpoint of the confidence interval `(a, b)`,
`mp = (a + b) / 2`. -/
def spec_normal_mp (a b : ℚ) : ℚ := (a + b) / 2

/-! Concrete instances used to evaluate the definitions on small inputs.
`pw0` and `sq0` are arbitrary instantiations of the float power and square
root parameters; every concrete statement below is insensitive to the
choice (the power is only reached in the `GEOMETRIC` branch and the square
root only affects the second summary component, which no concrete
statement inspects except through full evaluation with exactly these
instances). -/

/-- Arbitrary instantiation of the float-power parameter. -/
def pw0 : ℚ → ℚ → ℚ := fun x _ => x

/-- Arbitrary instantiation of the float-sqrt parameter. -/
def sq0 : ℚ → ℚ := fun x => x

/-- A link between two nodes `Q` and `U`, both unrelated to `T`. -/
def L3 : Link 1 := ⟨"L9", "Q", "U", fun _ => 1, fun _ => 1, fun _ => 1, 0⟩

/-- Model containing `L3` and an (isolated) node `T`. -/
def MX3 : DTBase 1 := ⟨[⟨"Q", "", ""⟩, ⟨"U", "", ""⟩, ⟨"T", "", ""⟩], [L3]⟩

/-- Model whose links into `T` are inserted parent-`B` first, then
parent-`A`: the predecessor iteration order is `B` before `A`, the reverse
of the order sorted by factor id. -/
def MX6 : DTBase 1 :=
  ⟨[⟨"A", "", ""⟩, ⟨"B", "", ""⟩, ⟨"T", "", ""⟩],
   [⟨"L2", "B", "T", fun _ => 1, fun _ => (1 : ℚ)/2, fun _ => 1, 0⟩,
    ⟨"L1", "A", "T", fun _ => 1, fun _ => (1 : ℚ)/3, fun _ => 1, 0⟩]⟩

/-- The conditional probability table computed for `MX6` with target `T`. -/
def cpt6 : List (List String × (ℚ × ℚ)) :=
  (calculate pw0 sq0 MX6 "T" .ARITHMETIC).getD []

/-- Model with a single link `P → T` whose `m1` sample is identically
zero, so the accumulated denominator `Z[P]` is the zero vector. -/
def MX7 : DTBase 1 :=
  ⟨[⟨"P", "", ""⟩, ⟨"T", "", ""⟩],
   [⟨"L1", "P", "T", fun _ => 0, fun _ => 1, fun _ => 1, 0⟩]⟩

/-- Model with a single node `T` and no links at all: `T` has zero
parents. -/
def MX8 : DTBase 1 := ⟨[⟨"T", "", ""⟩], []⟩

/-- Aggregated conditional probabilities used to evaluate the noisy-OR
monotonicity statement. -/
def cp9 : String → Fin 2 → ℚ := fun s _ => if s = "A" then (1 : ℚ)/2 else (1 : ℚ)/3

/-! The LIVE layer: the resampling semantics of `model.get_link`.

In the source, `db.get_link` (`model/db.py`) re-reads the row and
constructs `m1 = Estimate(...)`, then `m2 = Estimate(...)`, then
`m3 = Estimate(...)` on EVERY call, and `Estimate.__init__`
(`model/estimate.py` lines 27-38) draws its sample vector immediately
from `np.random.default_rng()` with no seed.  The unseeded generator is
embedded as an oracle: a stream `ω : ℕ → Fin n → ℚ` of the vectors that
successive `Estimate` constructions draw, together with a counter that
advances by one per construction — hence by three per `get_link` call,
in the order `m1`, `m2`, `m3` (draws `c`, `c + 1`, `c + 2`).  The float
distributions themselves (uniform/normal sampling) have no computable
rational embedding; the oracle captures exactly the nondeterminism the
program exposes, and a concrete statement instantiates it with one
realizable stream. -/

/-- The oracle stream of drawn sample vectors (see the section comment). -/
abbrev Rand (n : ℕ) := ℕ → Fin n → ℚ

/-- Embedding of a persisted link row (`model/db.py`, table `links`):
identifiers, the elicited `a`/`b` parameters of the three estimates, and
the edge key.  Sample vectors are NOT part of the row — they are drawn
afresh each time `get_link` rebuilds the `Link`.  (The memo, reference
and sample-size columns are omitted: quantification never reads them.
`link_id` is the primary key, so ids are unique.) -/
structure LinkRow where
  link_id : String
  parent_id : String
  child_id : String
  m1_a : ℚ
  m1_b : ℚ
  m2_a : ℚ
  m2_b : ℚ
  m3_a : ℚ
  m3_b : ℚ
  edge_key : ℕ

/-- The row-level model: node store and links table, without samples. -/
structure DTBaseDB where
  nodes : List Node
  rows : List LinkRow

/-- Predecessors of the target at the row level (as `DTBase.preds`). -/
def DTBaseDB.preds (db : DTBaseDB) (t : String) : List String :=
  dedupFirst ((db.rows.filter (fun r => r.child_id = t)).map LinkRow.parent_id)

/-- Rows of the links from `p` to `t` (as `DTBase.edgesTo`). -/
def DTBaseDB.edgesTo (db : DTBaseDB) (p t : String) : List LinkRow :=
  db.rows.filter (fun r => r.parent_id = p ∧ r.child_id = t)

/-- The `(parent, edge)` pairs visited by the `Z` loop of
`calc_normalized_weights` (and again by the aggregation loops), in
program order: outer loop over the predecessors, inner loop over that
parent's edges into the target. -/
def zEdgeList (db : DTBaseDB) (t : String) : List (String × LinkRow) :=
  (db.preds t).flatMap (fun p => (db.edgesTo p t).map (fun r => (p, r)))

/-- Embedding of the `Z` loop (`quantify.py` lines 55-59) with live
sampling: each edge triggers one `get_link` call, whose materialization
draws `m1` at counter `c` and `m3` at counter `c + 2`, and
`Z[parent] += m1.sample * m3.sample`. -/
def zLoopAccum {n : ℕ} (ω : Rand n) :
    List (String × LinkRow) → ℕ → (String → Fin n → ℚ) → (String → Fin n → ℚ)
  | [], _, Z => Z
  | (p, _) :: rest, c, Z =>
      zLoopAccum ω rest (c + 3)
        (fun q i => if q = p then Z q i + ω c i * ω (c + 2) i else Z q i)

/-- Embedding of the weight loop (`quantify.py` lines 61-63) with live
sampling: each link of the whole model triggers a FRESH `get_link` call
(drawing new `m1`, `m2`, `m3` at counters `c`, `c + 1`, `c + 2`) and is
assigned `(m1.sample * m3.sample) / Z[parent]` — a numerator drawn
independently of the samples accumulated into `Z`. -/
def weightsLoop {n : ℕ} (ω : Rand n) (Z : String → Fin n → ℚ) :
    List LinkRow → ℕ → List (String × (Fin n → ℚ))
  | [], _ => []
  | r :: rest, c =>
      (r.link_id, fun i => (ω c i * ω (c + 2) i) / Z r.parent_id i)
        :: weightsLoop ω Z rest (c + 3)

/-- Embedding of `calc_normalized_weights` with live sampling, threading
the draw counter: the `Z` loop consumes three draws per target edge,
then the weight loop three draws per model link.  The `KeyError` for a
link whose parent is no predecessor is `none`, as in the frozen layer. -/
def calc_normalized_weights_live {n : ℕ} (ω : Rand n) (db : DTBaseDB) (t : String)
    (c0 : ℕ) : Option (List (String × (Fin n → ℚ))) × ℕ :=
  let ze := zEdgeList db t
  let Z := zLoopAccum ω ze c0 (fun _ _ => 0)
  let c1 := c0 + 3 * ze.length
  if db.rows.all (fun r => (db.preds t).contains r.parent_id) then
    (some (weightsLoop ω Z db.rows c1), c1 + 3 * db.rows.length)
  else
    (none, c1 + 3 * db.rows.length)

/-- Embedding of `calc_cp_arithmetic` (`quantify.py` lines 77-81) with
live sampling: the loop re-fetches every target edge through `get_link`
(three new draws each; `m2` is the middle draw `c + 1`) and accumulates
`cp[parent] += weights[link_id] * m2.sample` into the zero-initialized
defaultdict. -/
def cpArithAccum {n : ℕ} (ω : Rand n) (w : List (String × (Fin n → ℚ))) :
    List (String × LinkRow) → ℕ → (String → Fin n → ℚ) → (String → Fin n → ℚ)
  | [], _, cp => cp
  | (p, r) :: rest, c, cp =>
      cpArithAccum ω w rest (c + 3)
        (fun q i => if q = p then cp q i + wlookup w r.link_id i * ω (c + 1) i else cp q i)

/-- Embedding of `calc_cp_geometric` (`quantify.py` lines 95-99) with
live sampling: as `cpArithAccum` but multiplying
`cp[parent] *= m2.sample ** weight` into the zero-initialized
defaultdict (the C2 slip is present here too). -/
def cpGeoAccum {n : ℕ} (pw : ℚ → ℚ → ℚ) (ω : Rand n) (w : List (String × (Fin n → ℚ))) :
    List (String × LinkRow) → ℕ → (String → Fin n → ℚ) → (String → Fin n → ℚ)
  | [], _, cp => cp
  | (p, r) :: rest, c, cp =>
      cpGeoAccum pw ω w rest (c + 3)
        (fun q i => if q = p then cp q i * pw (ω (c + 1) i) (wlookup w r.link_id i) else cp q i)

/-- Embedding of `calculate` with live sampling: weight normalization
(consuming its draws), then the selected aggregation (three more draws
per target edge), then the draw-free subset/summary loop.  The returned
counter is the generator position after the run: a second call on the
same model continues from there — the unseeded generator gives no way to
rewind. -/
def calculate_live {n : ℕ} (pw : ℚ → ℚ → ℚ) (sq : ℚ → ℚ) (ω : Rand n) (db : DTBaseDB)
    (t : String) (ag : AggregationMethod) (c0 : ℕ) :
    Option (List (List String × (ℚ × ℚ))) × ℕ :=
  match calc_normalized_weights_live ω db t c0 with
  | (none, c1) => (none, c1)
  | (some w, c1) =>
    let ze := zEdgeList db t
    let cp : String → Fin n → ℚ :=
      match ag with
      | .ARITHMETIC => cpArithAccum ω w ze c1 (fun _ _ => 0)
      | .GEOMETRIC => cpGeoAccum pw ω w ze c1 (fun _ _ => 0)
    (some ((subsetsList (db.preds t)).map (fun combo =>
        (combo, (vmean (calc_noisy_or cp combo), np_std sq (calc_noisy_or cp combo))))),
     c1 + 3 * ze.length)

/-- A concrete oracle stream: the k-th constructed estimate draws the
constant vector `k + 1`.  Realizable, e.g. every draw of a
`UNIFORM(0, 20)` estimate lies in `[0, 20]` with positive density. -/
def drawSeq : Rand 1 := fun k _ => (k + 1 : ℚ)

/-- Row-level model with a single link `L1 : P → T`, all three estimates
`UNIFORM(0, 20)`. -/
def DB1 : DTBaseDB :=
  ⟨[⟨"P", "", ""⟩, ⟨"T", "", ""⟩],
   [⟨"L1", "P", "T", 0, 20, 0, 20, 0, 20, 0⟩]⟩

/-- The weights the live run on `DB1` returns (starting at draw 0). -/
def wLive1 : List (String × (Fin 1 → ℚ)) :=
  ((calc_normalized_weights_live drawSeq DB1 "T" 0).1).getD []

/-! Helper lemmas (shared). -/

/-- A left fold that multiplies into an accumulator starting at `0` stays
at `0`. -/
theorem foldl_mul_from_zero {α : Type} (g : α → ℚ) :
    ∀ l : List α, l.foldl (fun acc x => acc * g x) 0 = 0 := by
  intro l
  induction l with
  | nil => rfl
  | cons x xs ih => rw [List.foldl_cons, zero_mul]; exact ih

/-- Dividing each summand by a common denominator divides the sum. -/
theorem sum_map_div {α : Type} (l : List α) (f : α → ℚ) (z : ℚ) :
    (l.map (fun x => f x / z)).sum = (l.map f).sum / z := by
  induction l with
  | nil => simp
  | cons x xs ih => simp only [List.map_cons, List.sum_cons, ih, div_add_div_same]

/-- Looking up the id of a member link in the association list built by
mapping over a link list with pairwise distinct ids returns the value
built from that very link. -/
theorem wlookup_map_of_nodup {n : ℕ} (g : Link n → Fin n → ℚ) :
    ∀ (ls : List (Link n)), (ls.map Link.link_id).Nodup →
      ∀ l ∈ ls, wlookup (ls.map (fun e => (e.link_id, g e))) l.link_id = g l := by
  intro ls
  induction ls with
  | nil => intro _ l hl; cases hl
  | cons a as ih =>
    intro hnd l hl
    rw [List.map_cons] at hnd
    have hnotin : a.link_id ∉ as.map Link.link_id := (List.nodup_cons.mp hnd).1
    rcases List.mem_cons.mp hl with rfl | hmem
    · unfold wlookup
      rw [List.map_cons, List.find?_cons_of_pos _ (by simp)]
    · have hne : (a.link_id == l.link_id) = false := by
        rcases h : a.link_id == l.link_id with _ | _
        · rfl
        · exact absurd (List.mem_map_of_mem Link.link_id hmem)
            (by rw [← eq_of_beq h]; exact hnotin)
      unfold wlookup
      rw [List.map_cons, List.find?_cons_of_neg _ (by simpa using hne)]
      exact ih (List.nodup_cons.mp hnd).2 l hmem

/-- A link selected by `edgesTo p t` is a model link with parent `p` and
child `t`. -/
theorem mem_edgesTo {n : ℕ} {m : DTBase n} {p t : String} {l : Link n}
    (h : l ∈ m.edgesTo p t) : l ∈ m.links ∧ l.parent_id = p ∧ l.child_id = t := by
  have h2 := List.mem_filter.mp h
  have h3 : l.parent_id = p ∧ l.child_id = t := of_decide_eq_true h2.2
  exact ⟨h2.1, h3.1, h3.2⟩

/-! Theorems for the claims. -/

/-- Claim C2 (refuted by this theorem, the code slip): the geometric
aggregation of `calc_cp_geometric` multiplies into the defaultdict
default `np.zeros(sample_size)` instead of the all-ones vector required
by the spec (and used by the analogous product in `calc_noisy_or`), so it
returns the zero vector for every model, target, weights, parent and
sample index, whatever function embeds the float power. -/
theorem C2_geometric_cp_always_zero {n : ℕ} (pw : ℚ → ℚ → ℚ) (m : DTBase n)
    (t : String) (w : List (String × (Fin n → ℚ))) (p : String) (i : Fin n) :
    calc_cp_geometric pw m t w p i = 0 := by
  unfold calc_cp_geometric
  exact foldl_mul_from_zero (fun l => pw (l.m2 i) (wlookup w l.link_id i)) (m.edgesTo p t)

/-- Claim C4 (the code slip): `Estimate.normal` passes
`mp = (b - a) / 2` as the mean of the draw; at `(a, b) = (1, 3)` that is
`1`, while the midpoint of the confidence interval — the spec formula, the
reading of the docstring of `Estimate.normal`, and the formula of the
sibling draft `model/uncertainty.py` — is `(a + b) / 2 = 2`. -/
theorem C4_normal_midpoint_bug :
    normal_mp 1 3 = 1 ∧ spec_normal_mp 1 3 = 2 ∧ normal_mp 1 3 ≠ spec_normal_mp 1 3 := by
  refine ⟨by norm_num [normal_mp], by norm_num [spec_normal_mp], by norm_num [normal_mp, spec_normal_mp]⟩

/-- Claim C3: if some link of the model has a parent node that is not a
predecessor of the chosen target, the weight loop of
`calc_normalized_weights` (which runs over every link of the whole model)
evaluates `Z[link.parent_id]` for a key that the dictionary `Z` does not
hold, an uncaught `KeyError` (embedded as `none`), and `calculate`
propagates the failure. -/
theorem C3_foreign_parent_keyerror {n : ℕ} (pw : ℚ → ℚ → ℚ) (sq : ℚ → ℚ)
    (m : DTBase n) (t : String) (l : Link n) (ag : AggregationMethod)
    (hl : l ∈ m.links) (hp : l.parent_id ∉ m.preds t) :
    calc_normalized_weights m t = none ∧ calculate pw sq m t ag = none := by
  have hall : ¬ (m.links.all (fun e => (m.preds t).contains e.parent_id) = true) := by
    intro hAll
    exact hp (by simpa using List.all_eq_true.mp hAll l hl)
  have h1 : calc_normalized_weights m t = none := by
    unfold calc_normalized_weights
    rw [if_neg hall]
  refine ⟨h1, ?_⟩
  unfold calculate
  rw [h1]
  rfl

/-- Witness for C3 at the concrete model `MX3`: the link `L3` goes from
`Q` to `U`, and `Q` is not a predecessor of the target `T`. -/
theorem C3_witness :
    (L3 ∈ MX3.links ∧ L3.parent_id ∉ MX3.preds "T") ∧
      calc_normalized_weights MX3 "T" = none ∧
      calculate pw0 sq0 MX3 "T" .ARITHMETIC = none := by
  have hl : L3 ∈ MX3.links := by simp [MX3]
  have hp : L3.parent_id ∉ MX3.preds "T" := by decide
  exact ⟨⟨hl, hp⟩, C3_foreign_parent_keyerror pw0 sq0 MX3 "T" L3 .ARITHMETIC hl hp⟩

/-- Claim C7 (refuted): at the concrete model `MX7` the accumulated
denominator `Z[P]` is zero at sample index `0`, yet
`calc_normalized_weights` does not fail: it returns a weights map.  The
code performs the elementwise division unguarded (NumPy produces
`inf`/`nan` there, with only a runtime warning) and defines no
`DegenerateWeightError` anywhere. -/
theorem C7_counterexample_no_error_on_zero_denominator :
    calcZ MX7 "T" "P" 0 = 0 ∧ "P" ∈ MX7.preds "T" ∧
      (calc_normalized_weights MX7 "T").isSome = true :=
  ⟨by norm_num [calcZ, DTBase.edgesTo, MX7], by decide, by rfl⟩

/-- Claim C7 amended: when every link parent is a predecessor of the
target, `calc_normalized_weights` returns a weights map even if the
denominator `Z[p]` is zero at some sample index for some parent `p`; the
division is silently undefined there (NumPy `inf`/`nan`, junk `0` in the
rational embedding) and no error of any kind is raised. -/
theorem C7_zero_denominator_returns_weights {n : ℕ} (m : DTBase n) (t p : String)
    (i : Fin n) (hall : ∀ l ∈ m.links, l.parent_id ∈ m.preds t)
    (_hp : p ∈ m.preds t) (_hz : calcZ m t p i = 0) :
    (calc_normalized_weights m t).isSome = true := by
  have hcond : m.links.all (fun e => (m.preds t).contains e.parent_id) = true := by
    rw [List.all_eq_true]
    intro e he
    simpa using hall e he
  unfold calc_normalized_weights
  rw [if_pos hcond]
  rfl

/-- Witness for the amended C7 at the concrete model `MX7`. -/
theorem C7_witness :
    ((∀ l ∈ MX7.links, l.parent_id ∈ MX7.preds "T") ∧ "P" ∈ MX7.preds "T" ∧
        calcZ MX7 "T" "P" 0 = 0) ∧
      (calc_normalized_weights MX7 "T").isSome = true := by
  have hall : ∀ l ∈ MX7.links, l.parent_id ∈ MX7.preds "T" := by
    intro l hl
    simp only [MX7, List.mem_singleton] at hl
    subst hl
    decide
  have hz : calcZ MX7 "T" "P" 0 = 0 := by norm_num [calcZ, DTBase.edgesTo, MX7]
  exact ⟨⟨hall, by decide, hz⟩,
    C7_zero_denominator_returns_weights MX7 "T" "P" 0 hall (by decide) hz⟩

/-- Claim C8 (refuted): at the concrete model `MX8` the target `T` has
zero parents, and `calculate` raises nothing: it returns an empty table.
The code defines no `NoPredecessorsError` anywhere. -/
theorem C8_counterexample_empty_cpt :
    (MX8.preds "T").length = 0 ∧ calculate pw0 sq0 MX8 "T" .ARITHMETIC = some [] :=
  ⟨by decide, by decide⟩

/-- Claim C8 amended: requesting quantification for a target of a model
without links (in particular a target with zero parents) returns the
empty conditional probability table; no `NoPredecessorsError` is raised
(no such class exists).  If the model does hold links, a parentless
target instead hits the `KeyError` of C3. -/
theorem C8_no_links_returns_empty_cpt {n : ℕ} (pw : ℚ → ℚ → ℚ) (sq : ℚ → ℚ)
    (m : DTBase n) (t : String) (ag : AggregationMethod) (h : m.links = []) :
    calculate pw sq m t ag = some [] := by
  have hp : m.preds t = [] := by simp [DTBase.preds, h, dedupFirst]
  have hw : calc_normalized_weights m t = some [] := by
    simp [calc_normalized_weights, h]
  cases ag <;> simp [calculate, hw, hp, subsetsList]

/-- Witness for the amended C8 at the concrete model `MX8`. -/
theorem C8_witness :
    MX8.links = [] ∧ calculate pw0 sq0 MX8 "T" .GEOMETRIC = some [] :=
  ⟨rfl, C8_no_links_returns_empty_cpt pw0 sq0 MX8 "T" .GEOMETRIC rfl⟩

/-- The first-occurrence deduplication produces a list without
duplicates. -/
theorem dedupFirst_nodup : ∀ l : List String, (dedupFirst l).Nodup := by
  intro l
  induction l with
  | nil => exact List.nodup_nil
  | cons x xs ih =>
    rw [dedupFirst]
    refine List.nodup_cons.mpr ⟨?_, ih.filter _⟩
    intro hmem
    have := List.of_mem_filter hmem
    simp at this

/-- The predecessor list of any target has no duplicates. -/
theorem preds_nodup {n : ℕ} (m : DTBase n) (t : String) : (m.preds t).Nodup :=
  dedupFirst_nodup _

/-- The enumerated combinations of a duplicate-free predecessor list are
pairwise distinct. -/
theorem subsetsList_nodup {pred : List String} (h : pred.Nodup) :
    (subsetsList pred).Nodup := by
  unfold subsetsList
  rw [List.nodup_flatMap]
  refine ⟨fun j _ => List.nodup_sublistsLen _ h, ?_⟩
  refine (List.pairwise_lt_range _).imp ?_
  intro a b hab s hsa hsb
  have h1 := (List.mem_sublistsLen.mp hsa).2
  have h2 := (List.mem_sublistsLen.mp hsb).2
  omega

/-- Membership in the enumerated combinations: exactly the non-empty
sublists of the predecessor list. -/
theorem mem_subsetsList {pred : List String} {s : List String} :
    s ∈ subsetsList pred ↔ s.Sublist pred ∧ s ≠ [] := by
  unfold subsetsList
  rw [List.mem_flatMap]
  constructor
  · rintro ⟨j, _, hs⟩
    have hlen := List.mem_sublistsLen.mp hs
    refine ⟨hlen.1, ?_⟩
    intro hnil
    rw [hnil] at hlen
    simp at hlen
  · rintro ⟨hs, hne⟩
    have hlen : 1 ≤ s.length := by
      cases s with
      | nil => exact absurd rfl hne
      | cons a as => simp
    have hle : s.length ≤ pred.length := hs.length_le
    refine ⟨s.length - 1, ?_, ?_⟩
    · rw [List.mem_range]
      omega
    · rw [List.mem_sublistsLen]
      exact ⟨hs, by omega⟩

/-- Claim C5: a target with `k ≥ 1` parents produces a table with exactly
`2 ^ k - 1` entries, keyed by pairwise distinct combinations: exactly the
non-empty subsets (sublists in predecessor order) of the parent list. -/
theorem C5_cpt_entry_count {n : ℕ} (pw : ℚ → ℚ → ℚ) (sq : ℚ → ℚ) (m : DTBase n)
    (t : String) (ag : AggregationMethod) (cpt : List (List String × (ℚ × ℚ)))
    (hc : calculate pw sq m t ag = some cpt) (_hk : 1 ≤ (m.preds t).length) :
    cpt.length = 2 ^ (m.preds t).length - 1 ∧
      (cpt.map Prod.fst).Nodup ∧
      ∀ s, s ∈ cpt.map Prod.fst ↔ (s.Sublist (m.preds t) ∧ s ≠ []) := by
  obtain ⟨w, _, hval⟩ := Option.map_eq_some'.mp hc
  have hkeys : cpt.map Prod.fst = subsetsList (m.preds t) := by
    rw [← hval, List.map_map]
    simp [Function.comp_def]
  refine ⟨?_, ?_, ?_⟩
  · rw [← hval, List.length_map]
    unfold subsetsList
    rw [List.length_flatMap]
    simp only [Function.comp_def, List.length_sublistsLen]
    have h := Nat.sum_range_choose (m.preds t).length
    rw [Finset.sum_range_succ'] at h
    simp only [Nat.choose_zero_right] at h
    have h2 : ((List.range (m.preds t).length).map
          (fun j => Nat.choose (m.preds t).length (j + 1))).sum
        = ∑ j ∈ Finset.range (m.preds t).length,
            Nat.choose (m.preds t).length (j + 1) := rfl
    omega
  · rw [hkeys]
    exact subsetsList_nodup (preds_nodup m t)
  · intro s
    rw [hkeys]
    exact mem_subsetsList

/-- Witness for C5 at the concrete model `MX6`, whose target `T` has the
two parents `B` and `A`: the table has `2 ^ 2 - 1 = 3` entries. -/
theorem C5_witness :
    (1 ≤ (MX6.preds "T").length) ∧
      (cpt6.length = 2 ^ (MX6.preds "T").length - 1 ∧
        (cpt6.map Prod.fst).Nodup ∧
        ∀ s, s ∈ cpt6.map Prod.fst ↔ (s.Sublist (MX6.preds "T") ∧ s ≠ [])) :=
  ⟨by decide, C5_cpt_entry_count pw0 sq0 MX6 "T" .ARITHMETIC cpt6 (by rfl) (by decide)⟩

/-- Supporting lemma for the C1 verdict: the normalization invariant the
spec states DOES hold of any single materialization of the links — when
the `Z` accumulation and the weight numerator read the same sample
vectors (frozen layer), the weights of a parent with nonzero `Z[p]` sum
elementwise to `Z[p] / Z[p] = 1`.  The live program breaks exactly this
(see `C1_live_weights_sum_not_one`): the weight loop redraws its
numerator samples, so the invariant fails.  Link ids are assumed
pairwise distinct (`link_id` is the primary key of the links table in
`model/db.py`). -/
theorem frozen_weights_sum_one {n : ℕ} (m : DTBase n) (t p : String)
    (w : List (String × (Fin n → ℚ)))
    (hnd : (m.links.map Link.link_id).Nodup)
    (hw : calc_normalized_weights m t = some w)
    (_hp : p ∈ m.preds t)
    (hZ : ∀ i, calcZ m t p i ≠ 0) :
    ∀ i, ((m.edgesTo p t).map (fun l => wlookup w l.link_id i)).sum = 1 := by
  intro i
  have hw2 : w = m.links.map (fun e =>
      (e.link_id, fun j => (e.m1 j * e.m3 j) / calcZ m t e.parent_id j)) := by
    unfold calc_normalized_weights at hw
    by_cases hc : m.links.all (fun e => (m.preds t).contains e.parent_id) = true
    · rw [if_pos hc] at hw
      exact (Option.some.inj hw).symm
    · rw [if_neg hc] at hw
      cases hw
  subst hw2
  have hmap : ∀ l ∈ m.edgesTo p t,
      wlookup (m.links.map (fun e =>
          (e.link_id, fun j => (e.m1 j * e.m3 j) / calcZ m t e.parent_id j)))
        l.link_id i = (l.m1 i * l.m3 i) / calcZ m t p i := by
    intro l hl
    obtain ⟨hmem, hpar, _⟩ := mem_edgesTo hl
    rw [wlookup_map_of_nodup
      (fun e => fun j => (e.m1 j * e.m3 j) / calcZ m t e.parent_id j) m.links hnd l hmem]
    rw [hpar]
  rw [List.map_congr_left hmap, sum_map_div]
  exact div_self (hZ i)

/-- Claim C1 (refuted on the live semantics, the code slip): at the
model `DB1` — one link `L1 : P → T`, so the parent `P` has a link into
the target — with the realizable draw stream `drawSeq`, the accumulated
denominator `Z[P]` is nonzero at every sample index and the weight map
is returned, yet the sum of the weights of the links from `P` is `8`,
not `1`: the weight loop re-fetches the link through `model.get_link`,
whose `Estimate` constructions redraw unseeded samples, so the numerator
`ω3 * ω5 = 4 * 6` is divided by the `Z[P] = ω0 * ω2 = 1 * 3` built from
DIFFERENT samples.  The invariant the claim states (and that
`frozen_weights_sum_one` proves of a single materialization) fails in
the program. -/
theorem C1_live_weights_sum_not_one :
    (∀ i, zLoopAccum drawSeq (zEdgeList DB1 "T") 0 (fun _ _ => 0) "P" i ≠ 0) ∧
      (calc_normalized_weights_live drawSeq DB1 "T" 0).1 = some wLive1 ∧
      ((DB1.edgesTo "P" "T").map (fun r => wlookup wLive1 r.link_id 0)).sum = 8 ∧
      ((8 : ℚ) ≠ 1) := by
  refine ⟨?_, by rfl, ?_, by norm_num⟩
  · intro i
    norm_num [zLoopAccum, zEdgeList, DTBaseDB.preds, DTBaseDB.edgesTo, dedupFirst,
      DB1, drawSeq]
  · norm_num [wLive1, calc_normalized_weights_live, weightsLoop, zLoopAccum, zEdgeList,
      DTBaseDB.preds, DTBaseDB.edgesTo, dedupFirst, DB1, drawSeq, wlookup, List.find?]

/-- Claim C6 (refuted): at the concrete model `MX6` the predecessor set
iterates `B` before `A`, so the table key for the two-element subset is
the tuple `("B", "A")` — the members in iteration order, not the
canonical tuple sorted by factor id, which would be `("A", "B")` and is
not a key.  No sorting is applied anywhere in `calculate`. -/
theorem C6_counterexample_unsorted_key :
    cpt6.map Prod.fst = [["A"], ["B"], ["B", "A"]] ∧
      (["B", "A"] : List String) ≠ ["A", "B"] := by
  exact ⟨by rfl, by decide⟩

/-- Claim C6 amended: every table key is a non-empty subsequence of the
predecessor list in its (arbitrary, set-iteration) order; the subset
members are NOT canonicalized by sorting, so the key depends on that
order. -/
theorem C6_keys_follow_predecessor_order {n : ℕ} (pw : ℚ → ℚ → ℚ) (sq : ℚ → ℚ)
    (m : DTBase n) (t : String) (ag : AggregationMethod)
    (cpt : List (List String × (ℚ × ℚ)))
    (hc : calculate pw sq m t ag = some cpt) :
    ∀ key ∈ cpt.map Prod.fst, key ≠ [] ∧ key.Sublist (m.preds t) := by
  obtain ⟨w, _, hval⟩ := Option.map_eq_some'.mp hc
  have hkeys : cpt.map Prod.fst = subsetsList (m.preds t) := by
    rw [← hval, List.map_map]
    simp [Function.comp_def]
  rw [hkeys]
  intro key hkey
  have h := mem_subsetsList.mp hkey
  exact ⟨h.2, h.1⟩

/-- Witness for the amended C6 at `MX6` and its key `["B", "A"]`. -/
theorem C6_witness :
    (["B", "A"] : List String) ≠ [] ∧ (["B", "A"] : List String).Sublist (MX6.preds "T") :=
  C6_keys_follow_predecessor_order pw0 sq0 MX6 "T" .ARITHMETIC cpt6 (by rfl)
    ["B", "A"] (by decide)

/-- Claim C9: the noisy-OR combination of two parents whose aggregated
conditional-probability samples lie in `[0, 1]` has a sample mean at
least the maximum of the two individual sample means — noisy-OR is
monotone non-decreasing in added causes. -/
theorem C9_noisy_or_monotone {n : ℕ} (cp : String → Fin n → ℚ) (A B : String)
    (hA : ∀ i, 0 ≤ cp A i ∧ cp A i ≤ 1) (hB : ∀ i, 0 ≤ cp B i ∧ cp B i ≤ 1) :
    max (vmean (cp A)) (vmean (cp B)) ≤ vmean (calc_noisy_or cp [A, B]) := by
  have key : ∀ i, cp A i ≤ calc_noisy_or cp [A, B] i ∧
      cp B i ≤ calc_noisy_or cp [A, B] i := by
    intro i
    have h1 := hA i
    have h2 := hB i
    unfold calc_noisy_or
    simp only [List.foldl_cons, List.foldl_nil, one_mul]
    constructor <;>
      nlinarith [mul_nonneg (sub_nonneg.mpr h1.2) h2.1,
        mul_nonneg (sub_nonneg.mpr h2.2) h1.1]
  have hmono : ∀ u v : Fin n → ℚ, (∀ i, u i ≤ v i) → vmean u ≤ vmean v := by
    intro u v h
    unfold vmean
    rw [div_eq_mul_inv, div_eq_mul_inv]
    exact mul_le_mul_of_nonneg_right (Finset.sum_le_sum (fun i _ => h i))
      (by positivity)
  exact max_le (hmono _ _ (fun i => (key i).1)) (hmono _ _ (fun i => (key i).2))

/-- Witness for C9 at the concrete aggregated probabilities `cp9`. -/
theorem C9_witness :
    ((∀ i : Fin 2, 0 ≤ cp9 "A" i ∧ cp9 "A" i ≤ 1) ∧
        (∀ i : Fin 2, 0 ≤ cp9 "B" i ∧ cp9 "B" i ≤ 1)) ∧
      max (vmean (cp9 "A")) (vmean (cp9 "B")) ≤ vmean (calc_noisy_or cp9 ["A", "B"]) := by
  have hA : ∀ i : Fin 2, 0 ≤ cp9 "A" i ∧ cp9 "A" i ≤ 1 := by
    intro i
    norm_num [cp9]
  have hB : ∀ i : Fin 2, 0 ≤ cp9 "B" i ∧ cp9 "B" i ≤ 1 := by
    intro i
    have hne : ("B" : String) ≠ "A" := by decide
    norm_num [cp9, if_neg hne]
  exact ⟨⟨hA, hB⟩, C9_noisy_or_monotone cp9 "A" "B" hA hB⟩

/-- Claim C10 (refuted on the live semantics, the code slip): no "same
random seed" exists — `Estimate.__init__` calls
`np.random.default_rng()` with no seed parameter and samples are redrawn
by every `get_link` inside `calculate`, not fixed at model construction.
Two successive `calculate` calls on the very same model `DB1` (the
second starting at the generator position where the first stopped)
return different summaries: the table entry for `("P",)` has mean `64`
on the first call and `221 / 8` on the second, under the realizable
stream `drawSeq`. -/
theorem C10_second_call_differs :
    (calculate_live pw0 sq0 drawSeq DB1 "T" .ARITHMETIC 0).1
        = some [(["P"], ((64 : ℚ), 0))] ∧
      (calculate_live pw0 sq0 drawSeq DB1 "T" .ARITHMETIC
          (calculate_live pw0 sq0 drawSeq DB1 "T" .ARITHMETIC 0).2).1
        = some [(["P"], ((221 : ℚ)/8, 0))] ∧
      ([(["P"], ((64 : ℚ), 0))] : List (List String × (ℚ × ℚ)))
        ≠ [(["P"], ((221 : ℚ)/8, 0))] := by
  refine ⟨?_, ?_, by norm_num⟩
  · norm_num [calculate_live, calc_normalized_weights_live, weightsLoop, zLoopAccum,
      zEdgeList, cpArithAccum, DTBaseDB.preds, DTBaseDB.edgesTo, dedupFirst, DB1, drawSeq,
      wlookup, List.find?, subsetsList, calc_noisy_or, vmean, np_std, sq0, Fin.sum_univ_one,
      List.range_succ, List.range_zero, List.flatMap_cons, List.flatMap_nil,
      List.sublistsLen_zero, List.sublistsLen_succ_nil, List.foldl_cons, List.foldl_nil]
  · norm_num [calculate_live, calc_normalized_weights_live, weightsLoop, zLoopAccum,
      zEdgeList, cpArithAccum, DTBaseDB.preds, DTBaseDB.edgesTo, dedupFirst, DB1, drawSeq,
      wlookup, List.find?, subsetsList, calc_noisy_or, vmean, np_std, sq0, Fin.sum_univ_one,
      List.range_succ, List.range_zero, List.flatMap_cons, List.flatMap_nil,
      List.sublistsLen_zero, List.sublistsLen_succ_nil, List.foldl_cons, List.foldl_nil]

end DTQuant
